import Mathlib

/-!
Shallow embedding of the Crystal storage pipeline (`src/pipeline.py`) and proofs
about its specification.  Byte strings are modelled as `List Nat` (one entry per
byte).  External library primitives (SHA-256, PBKDF2, AES-GCM, zlib) are not
code of this repository; they are abstracted as a record of functions `Prims`
together with the correctness laws `Prims.Good` that those libraries provide.
Everything that is code of `pipeline.py` is translated directly.
-/

namespace Crystal

/-- Byte strings: a list of byte values. -/
abbrev Bytes := List Nat

/-- ASCII bytes of a literal string (every string used by the pipeline is ASCII). -/
def strBytes (s : String) : Bytes := s.data.map Char.toNat

/-- Decimal digits with an explicit fuel argument, so that the recursion is
structural and evaluates inside the kernel. -/
def decDigitsAux : Nat → Nat → List Nat
  | 0, n => [n]
  | fuel + 1, n => if n < 10 then [n] else decDigitsAux fuel (n / 10) ++ [n % 10]

/-- Decimal digits of a natural number, most significant first. -/
def decDigits (n : Nat) : List Nat := decDigitsAux n n

/-- ASCII decimal representation of a natural number, as produced by Python
`str` on a nonnegative integer. -/
def decBytes (n : Nat) : Bytes := (decDigits n).map (fun d => d + 48)

/-- Lowercase hexadecimal digit character code for a value below 16. -/
def hexDigitByte (d : Nat) : Nat := if d < 10 then d + 48 else d + 87

/-- Escape of a single byte inside the Python `repr` of a `bytes` object, for
quote character code `q`. -/
def pyByteEscape (q c : Nat) : Bytes :=
  if c = q ∨ c = 92 then [92, c]
  else if c = 9 then [92, 116]
  else if c = 10 then [92, 110]
  else if c = 13 then [92, 114]
  else if c < 32 ∨ 127 ≤ c then [92, 120, hexDigitByte (c / 16), hexDigitByte (c % 16)]
  else [c]

/-- Quote character chosen by the Python `repr` of a `bytes` object: a single
quote unless the bytes contain one and contain no double quote. -/
def pyReprQuote (b : Bytes) : Nat := if 39 ∈ b ∧ ¬ 34 ∈ b then 34 else 39

/-- Python `repr` (equivalently `str`) of a `bytes` object, as interpolated by
an f-string: the letter b, an opening quote, the escaped bytes, a closing
quote. -/
def pyBytesRepr (b : Bytes) : Bytes :=
  let q := pyReprQuote b
  98 :: q :: (b.flatMap (pyByteEscape q) ++ [q])

/-- External cryptographic and compression primitives used by `pipeline.py`.
These are library calls (`hashlib`, `cryptography`, `zlib`), not code of the
repository, so they are abstracted as function parameters. -/
structure Prims where
  sha256 : Bytes → Bytes
  pbkdf2 : Bytes → Bytes → Nat → Nat → Bytes
  gcmEnc : Bytes → Bytes → Bytes → Bytes × Bytes
  gcmDec : Bytes → Bytes → Bytes → Bytes → Option Bytes
  compress : Bytes → Bytes
  decompress : Bytes → Option Bytes

/-- Laws that the real libraries satisfy and on which the pipeline relies:
SHA-256 digests are 32 bytes, GCM tags are 16 bytes, GCM decryption inverts
encryption under the same key and nonce, and inflation inverts deflation. -/
structure Prims.Good (P : Prims) : Prop where
  sha_len : ∀ b, (P.sha256 b).length = 32
  tag_len : ∀ k n pt, (P.gcmEnc k n pt).2.length = 16
  gcm_correct : ∀ k n pt, P.gcmDec k n (P.gcmEnc k n pt).2 (P.gcmEnc k n pt).1 = some pt
  decompress_compress : ∀ b, P.decompress (P.compress b) = some b

/-- Seed built by `KeyManagementSystem.generate_key`: the UTF-8 bytes of the
f-string interpolating the fragment id, the dataset checksum and the replica
id.  The dataset checksum handed to the pipeline by its callers is the raw
SHA-256 digest, a Python `bytes` object, so the f-string renders it through
`repr`. -/
def generateKeySeed (H : Bytes) (fragment_id replica : Nat) : Bytes :=
  decBytes fragment_id ++ [58] ++ pyBytesRepr H ++ [58] ++ decBytes replica

/-- Embedding of `KeyManagementSystem.generate_key`: PBKDF2-HMAC-SHA256 over
the seed with the first 16 seed bytes as salt and 100000 iterations, and the
first 12 seed bytes as nonce. -/
def generate_key (P : Prims) (H : Bytes) (fragment_id replica : Nat) : Bytes × Bytes :=
  let seed := generateKeySeed H fragment_id replica
  (P.pbkdf2 seed (seed.take 16) 100000 32, seed.take 12)

/-- Embedding of `optimal_fragment_size` from `pipeline.py`, with the byte
thresholds written exactly as the source computes them. -/
def optimal_fragment_size (dataset_size : Nat) : Nat :=
  if dataset_size ≤ 1024 * 100 then dataset_size
  else if dataset_size ≤ 1024 * 1000 then 1024 * 50
  else if dataset_size ≤ 1024 * 10000 then 1024 * 100
  else 1024 * 200

/-- Number of fragments produced for `n` payload bytes and fragment size `s`:
the length of the Python iteration `range(0, n, s)`. -/
def numFragments (n s : Nat) : Nat := (n + s - 1) / s

/-- Embedding of `AssemblyLine.fragment_data`: the list comprehension slicing
`data[i:i+fragment_size]` for `i` in `range(0, len(data), fragment_size)`. -/
def fragment_data (data : Bytes) (fragment_size : Nat) : List Bytes :=
  (List.range (numFragments data.length fragment_size)).map
    (fun k => (data.drop (k * fragment_size)).take fragment_size)

/-- Embedding of `encrypt_fragment_sync`: derive key and nonce, AES-GCM
encrypt the (already compressed) fragment, and return the tuple
`(fragment_id, replica, ciphertext, tag, sha256 of ciphertext)`. -/
def encrypt_fragment_sync (P : Prims) (args : Nat × Bytes × Bytes × Nat) :
    Nat × Nat × Bytes × Bytes × Bytes :=
  let (fragment_id, fragment, dataset_checksum, replica) := args
  let kn := generate_key P dataset_checksum fragment_id replica
  let enc := P.gcmEnc kn.1 kn.2 fragment
  (fragment_id, replica, enc.1, enc.2, P.sha256 enc.1)

/-- Embedding of `AssemblyLine.encrypt_fragments`: on the inline fast path
(single fragment) compress and encrypt replica 0 only; otherwise compress each
fragment once and encrypt it once per replica, fragment ids outermost. -/
def encrypt_fragments (P : Prims) (H : Bytes) (replication_factor : Nat)
    (fragments : List Bytes) (inline : Bool) : List (Nat × Nat × Bytes × Bytes × Bytes) :=
  if inline ∧ fragments.length = 1 then
    let compressed_data := P.compress (fragments.getD 0 [])
    let kn := generate_key P H 0 0
    let enc := P.gcmEnc kn.1 kn.2 compressed_data
    [(0, 0, enc.1, enc.2, P.sha256 enc.1)]
  else
    (List.range fragments.length).flatMap (fun i =>
      let compressed_fragment := P.compress (fragments.getD i [])
      (List.range replication_factor).map (fun replica =>
        encrypt_fragment_sync P (i, compressed_fragment, H, replica)))

/-- Decidable equality for exception results, so that closed statements about
retrieval outcomes can be settled by evaluation. -/
instance {ε α : Type} [DecidableEq ε] [DecidableEq α] : DecidableEq (Except ε α) := fun a b =>
  match a, b with
  | .error e, .error f =>
    if h : e = f then isTrue (by rw [h]) else isFalse (fun c => h (by injection c))
  | .error _, .ok _ => isFalse (fun c => Except.noConfusion c)
  | .ok _, .error _ => isFalse (fun c => Except.noConfusion c)
  | .ok a, .ok b =>
    if h : a = b then isTrue (by rw [h]) else isFalse (fun c => h (by injection c))

/-- Result of reading a file: the path may be absent, the read may fail at the
I/O level, or it returns the file content. -/
inductive ReadOutcome where
  | missing
  | ioError
  | found (data : Bytes)
deriving DecidableEq

/-- State of the node directories: what a read of each path returns. -/
abbrev Storage := Bytes → ReadOutcome

/-- Storage in which no file exists. -/
def emptyStorage : Storage := fun _ => .missing

/-- Effect of a whole-file write on the storage state. -/
def writeFile (σ : Storage) (path data : Bytes) : Storage :=
  fun q => if q = path then .found data else σ q

/-- Effect of removing a file, as the failure-simulation harness does. -/
def deleteFile (σ : Storage) (path : Bytes) : Storage :=
  fun q => if q = path then .missing else σ q

/-- Embedding of `os.path.join` for a directory and a relative file name. -/
def joinPath (dir fname : Bytes) : Bytes :=
  if dir = [] then fname
  else if dir.getLast? = some 47 then dir ++ fname
  else dir ++ 47 :: fname

/-- File name used by `AssemblyLine._store_fragment` and by
`AssemblyLine.retrieve_fragments` for one replica of one fragment. -/
def fragmentFileName (fragment_id replica : Nat) : Bytes :=
  strBytes "fragment_" ++ decBytes fragment_id ++ strBytes "_replica_" ++
    decBytes replica ++ strBytes ".pkl"

/-- Path computed by the producer (`AssemblyLine._store_fragment`). -/
def store_fragment_path (node_paths : List Bytes) (replication_factor fragment_id replica : Nat) :
    Bytes :=
  let node_index := (fragment_id * replication_factor + replica) % node_paths.length
  joinPath (node_paths.getD node_index []) (fragmentFileName fragment_id replica)

/-- Path computed by the consumer (`AssemblyLine.retrieve_fragments`). -/
def retrieve_fragment_path (node_paths : List Bytes) (replication_factor fragment_id replica : Nat) :
    Bytes :=
  let node_index := (fragment_id * replication_factor + replica) % node_paths.length
  joinPath (node_paths.getD node_index []) (fragmentFileName fragment_id replica)

/-- Embedding of `AssemblyLine.store_fragments` together with
`AssemblyLine._store_fragment`: write `ciphertext + tag + checksum` for every
tuple, at the path determined by the fragment and replica ids.  Batching only
schedules the same writes, so the storage effect is the fold of the writes. -/
def store_fragments (node_paths : List Bytes) (replication_factor : Nat)
    (encrypted_fragments : List (Nat × Nat × Bytes × Bytes × Bytes)) (σ : Storage) : Storage :=
  encrypted_fragments.foldl (fun σ e =>
    writeFile σ (store_fragment_path node_paths replication_factor e.1 e.2.1)
      (e.2.2.1 ++ e.2.2.2.1 ++ e.2.2.2.2)) σ

/-- Error kinds distinguished by the replica-decoding code in
`AssemblyLine.retrieve_fragments` (its three rejection log messages). -/
inductive DecodeErr where
  | malformedFrame
  | checksumMismatch
  | authFailure
deriving DecidableEq

/-- Decoding of one stored blob, translated from the body of
`AssemblyLine.retrieve_fragments`: reject short blobs, split off tag and
checksum from the end, verify the ciphertext checksum, then decrypt. -/
def decode_blob (P : Prims) (H : Bytes) (fragment_id replica : Nat) (data : Bytes) :
    Except DecodeErr Bytes :=
  if data.length < 48 then .error .malformedFrame
  else
    let encrypted_fragment := data.take (data.length - 48)
    let tag := (data.drop (data.length - 48)).take 16
    let checksum := data.drop (data.length - 32)
    if P.sha256 encrypted_fragment ≠ checksum then .error .checksumMismatch
    else
      let kn := generate_key P H fragment_id replica
      match P.gcmDec kn.1 kn.2 tag encrypted_fragment with
      | none => .error .authFailure
      | some pt => .ok pt

/-- Replica probing loop of `retrieve_fragment` inside
`AssemblyLine.retrieve_fragments`: try the replicas in order; a missing file,
a rejected blob or a failed decompression moves on to the next replica, while
an I/O failure of the read itself is uncaught and escapes (modelled as
`Except.error`).  Returns the first successfully decoded fragment, if any. -/
def probe_replicas (P : Prims) (σ : Storage) (node_paths : List Bytes)
    (replication_factor : Nat) (H : Bytes) (fragment_id : Nat) :
    List Nat → Except Unit (Option Bytes)
  | [] => .ok none
  | replica :: rest =>
    match σ (retrieve_fragment_path node_paths replication_factor fragment_id replica) with
    | .missing => probe_replicas P σ node_paths replication_factor H fragment_id rest
    | .ioError => .error ()
    | .found data =>
      match decode_blob P H fragment_id replica data with
      | .error _ => probe_replicas P σ node_paths replication_factor H fragment_id rest
      | .ok pt =>
        match P.decompress pt with
        | none => probe_replicas P σ node_paths replication_factor H fragment_id rest
        | some fragment => .ok (some fragment)

/-- Per-fragment retrieval: probe the replicas `0, 1, ..., R-1` in order. -/
def retrieve_fragment (P : Prims) (σ : Storage) (node_paths : List Bytes)
    (replication_factor : Nat) (H : Bytes) (fragment_id : Nat) : Except Unit (Option Bytes) :=
  probe_replicas P σ node_paths replication_factor H fragment_id
    (List.range replication_factor)

/-- Outer loop of `AssemblyLine.retrieve_fragments` over the fragment ids:
collect the pairs `(fragment_id, fragment)` for the fragments that survived,
in id order; an escaped exception aborts the whole retrieval. -/
def retrieve_loop (P : Prims) (σ : Storage) (node_paths : List Bytes)
    (replication_factor : Nat) (H : Bytes) : List Nat → Except Unit (List (Nat × Bytes))
  | [] => .ok []
  | i :: rest =>
    match retrieve_fragment P σ node_paths replication_factor H i with
    | .error e => .error e
    | .ok none => retrieve_loop P σ node_paths replication_factor H rest
    | .ok (some fragment) =>
      match retrieve_loop P σ node_paths replication_factor H rest with
      | .error e => .error e
      | .ok fs => .ok ((i, fragment) :: fs)

/-- Embedding of `AssemblyLine.retrieve_fragments` for a given fragment
count. -/
def retrieve_fragments (P : Prims) (σ : Storage) (node_paths : List Bytes)
    (replication_factor : Nat) (H : Bytes) (num_fragments : Nat) :
    Except Unit (List (Nat × Bytes)) :=
  retrieve_loop P σ node_paths replication_factor H (List.range num_fragments)

/-- Stable insertion of a pair into a list sorted by fragment id: the new pair
goes after every pair whose id is not larger, preserving the original order of
equal ids, as Python `sorted` does. -/
def insertById (a : Nat × Bytes) : List (Nat × Bytes) → List (Nat × Bytes)
  | [] => [a]
  | b :: t => if b.1 ≤ a.1 then b :: insertById a t else a :: b :: t

/-- Stable sort by fragment id, modelling `sorted(fragments, key=lambda x: x[0])`. -/
def sortById (fragments : List (Nat × Bytes)) : List (Nat × Bytes) :=
  fragments.foldr insertById []

/-- Embedding of `AssemblyLine.parallel_reassemble`: return empty bytes when
nothing survived, otherwise sort the pairs by fragment id (Python `sorted` is
a stable sort) and concatenate the fragment bytes. -/
def parallel_reassemble (fragments : List (Nat × Bytes)) : Bytes :=
  if fragments = [] then []
  else ((sortById fragments).map (fun f => f.2)).flatten

/-- Write path of the pipeline as driven by the repository callers: checksum
the payload, split it, compress and encrypt, and store every produced blob. -/
def store_pipeline (P : Prims) (node_paths : List Bytes) (replication_factor fragment_size : Nat)
    (payload : Bytes) (inline : Bool) (σ : Storage) : Storage :=
  let H := P.sha256 payload
  let fragments := fragment_data payload fragment_size
  store_fragments node_paths replication_factor
    (encrypt_fragments P H replication_factor fragments inline) σ

/-- Read path of the pipeline as driven by the repository callers: retrieve
the fragments and reassemble them. -/
def retrieve_pipeline (P : Prims) (σ : Storage) (node_paths : List Bytes)
    (replication_factor : Nat) (H : Bytes) (num_fragments : Nat) : Except Unit Bytes :=
  match retrieve_fragments P σ node_paths replication_factor H num_fragments with
  | .error e => .error e
  | .ok fragments => .ok (parallel_reassemble fragments)

/-- Framed blob produced for one replica of one fragment, as a function of the
payload checksum, the indices and the fragment bytes alone. -/
def encode_blob (P : Prims) (H : Bytes) (fragment_id replica : Nat) (fragment : Bytes) : Bytes :=
  let compressed := P.compress fragment
  let kn := generate_key P H fragment_id replica
  let enc := P.gcmEnc kn.1 kn.2 compressed
  enc.1 ++ enc.2 ++ P.sha256 enc.1

/-- Value of a digit list read in base ten. -/
def digitsVal (ds : List Nat) : Nat := ds.foldl (fun a d => 10 * a + d) 0

/-- Suffix of a path after its last slash (the whole path when it has none). -/
def lastComponent (p : Bytes) : Bytes := (p.reverse.takeWhile (fun x => x != 47)).reverse

/-- Lowercase hexadecimal rendering of a byte string, two characters per
byte. -/
def hexBytes (b : Bytes) : Bytes :=
  b.flatMap (fun c => [hexDigitByte (c / 16), hexDigitByte (c % 16)])

/-- Seed as claim C4 words it, with the checksum rendered in hexadecimal.
Modelled from the claim wording, for comparison with the code. -/
def claimSeedHex (H : Bytes) (fragment_id replica : Nat) : Bytes :=
  decBytes fragment_id ++ [58] ++ hexBytes H ++ [58] ++ decBytes replica

/-- Seed as the amended claim C4 words it: decimal fragment id, a colon, the
Python repr of the checksum bytes object, a colon, the decimal replica id.
Written from the amended claim wording, for comparison with the code. -/
def amendedSeedSpec (H : Bytes) (fragment_id replica : Nat) : Bytes :=
  decBytes fragment_id ++ [58] ++ pyBytesRepr H ++ [58] ++ decBytes replica

/-- Concrete instantiation of the external primitives, used to exercise the
pipeline on closed inputs. -/
def toyPrims : Prims where
  sha256 _ := List.replicate 32 0
  pbkdf2 pw _ _ len := pw.take len
  gcmEnc _ _ pt := (pt, List.replicate 16 7)
  gcmDec _ _ tag ct := if tag = List.replicate 16 7 then some ct else none
  compress b := 120 :: b
  decompress b := match b with
    | 120 :: rest => some rest
    | _ => none

/-! Properties of the decimal representation. -/

theorem decDigitsAux_fuel_irrel : ∀ (n f₁ f₂ : Nat), n ≤ f₁ → n ≤ f₂ →
    decDigitsAux f₁ n = decDigitsAux f₂ n := by
  intro n
  induction n using Nat.strong_induction_on with
  | _ n ih =>
    intro f₁ f₂ h₁ h₂
    match f₁, f₂ with
    | 0, 0 => rfl
    | 0, g + 1 =>
      have hn : n = 0 := Nat.le_zero.mp h₁
      subst hn
      simp [decDigitsAux]
    | g + 1, 0 =>
      have hn : n = 0 := Nat.le_zero.mp h₂
      subst hn
      simp [decDigitsAux]
    | g + 1, g' + 1 =>
      by_cases hlt : n < 10
      · simp [decDigitsAux, hlt]
      · have hdiv : n / 10 < n := Nat.div_lt_self (by omega) (by omega)
        have hle₁ : n / 10 ≤ g := by omega
        have hle₂ : n / 10 ≤ g' := by omega
        simp only [decDigitsAux, hlt, if_false]
        rw [ih (n / 10) hdiv g g' hle₁ hle₂]

theorem decDigits_unfold (n : Nat) :
    decDigits n = if n < 10 then [n] else decDigits (n / 10) ++ [n % 10] := by
  by_cases hlt : n < 10
  · match n, hlt with
    | 0, _ => simp [decDigits, decDigitsAux]
    | k + 1, h => simp [decDigits, decDigitsAux, h]
  · have hn : n ≠ 0 := by omega
    obtain ⟨m, rfl⟩ : ∃ m, n = m + 1 := ⟨n - 1, by omega⟩
    simp only [decDigits, decDigitsAux, hlt, if_false]
    congr 1
    exact decDigitsAux_fuel_irrel _ _ _ (by omega) (Nat.le_refl _)

theorem digitsVal_foldl_init (ds : List Nat) : ∀ (a : Nat),
    ds.foldl (fun a d => 10 * a + d) a = a * 10 ^ ds.length + digitsVal ds := by
  induction ds with
  | nil => intro a; simp [digitsVal]
  | cons d t ih =>
    intro a
    simp only [List.foldl_cons, digitsVal, Nat.mul_zero, Nat.zero_add, List.length_cons] at *
    rw [ih (10 * a + d), ih d]
    ring

theorem digitsVal_append_singleton (ds : List Nat) (d : Nat) :
    digitsVal (ds ++ [d]) = 10 * digitsVal ds + d := by
  simp only [digitsVal, List.foldl_append, List.foldl_cons, List.foldl_nil]

theorem digitsVal_decDigits (n : Nat) : digitsVal (decDigits n) = n := by
  induction n using Nat.strong_induction_on with
  | _ n ih =>
    rw [decDigits_unfold]
    by_cases hlt : n < 10
    · simp [hlt, digitsVal]
    · have hdiv : n / 10 < n := Nat.div_lt_self (by omega) (by omega)
      simp only [hlt, if_false]
      rw [digitsVal_append_singleton, ih (n / 10) hdiv]
      omega

theorem decDigits_inj {m n : Nat} (h : decDigits m = decDigits n) : m = n := by
  rw [← digitsVal_decDigits m, ← digitsVal_decDigits n, h]

theorem decDigits_lt_ten {n : Nat} : ∀ d ∈ decDigits n, d < 10 := by
  induction n using Nat.strong_induction_on with
  | _ n ih =>
    rw [decDigits_unfold]
    by_cases hlt : n < 10
    · simp [hlt]
    · have hdiv : n / 10 < n := Nat.div_lt_self (by omega) (by omega)
      simp only [hlt, if_false]
      intro d hd
      rcases List.mem_append.mp hd with h | h
      · exact ih (n / 10) hdiv d h
      · simp only [List.mem_singleton] at h
        omega

theorem decDigits_ne_nil (n : Nat) : decDigits n ≠ [] := by
  rw [decDigits_unfold]
  by_cases hlt : n < 10 <;> simp [hlt]

theorem decBytes_inj {m n : Nat} (h : decBytes m = decBytes n) : m = n := by
  apply decDigits_inj
  exact List.map_injective_iff.mpr (fun a b hab => by omega) h

theorem decBytes_range {n : Nat} : ∀ x ∈ decBytes n, 48 ≤ x ∧ x < 58 := by
  intro x hx
  simp only [decBytes, List.mem_map] at hx
  obtain ⟨d, hd, rfl⟩ := hx
  have := decDigits_lt_ten d hd
  omega

theorem decBytes_ne_nil (n : Nat) : decBytes n ≠ [] := by
  simp [decBytes, decDigits_ne_nil n]

theorem decBytes_length_pos (n : Nat) : 1 ≤ (decBytes n).length := by
  have := decBytes_ne_nil n
  cases h : decBytes n with
  | nil => exact absurd h this
  | cons a t => simp

/-! Properties of file names and paths. -/

theorem digit_block_inj : ∀ (a b s t : List Nat),
    (∀ x ∈ a, 48 ≤ x ∧ x < 58) → (∀ x ∈ b, 48 ≤ x ∧ x < 58) →
    (∀ c, s.head? = some c → ¬(48 ≤ c ∧ c < 58)) →
    (∀ c, t.head? = some c → ¬(48 ≤ c ∧ c < 58)) →
    a ++ s = b ++ t → a = b ∧ s = t := by
  intro a
  induction a with
  | nil =>
    intro b s t _ hb hs ht heq
    cases b with
    | nil => exact ⟨rfl, heq⟩
    | cons y u =>
      exfalso
      simp only [List.nil_append, List.cons_append] at heq
      subst heq
      exact hs y rfl (hb y (by simp))
  | cons x a ih =>
    intro b s t ha hb hs ht heq
    cases b with
    | nil =>
      exfalso
      simp only [List.cons_append, List.nil_append] at heq
      subst heq
      exact ht x rfl (ha x (by simp))
    | cons y u =>
      simp only [List.cons_append, List.cons.injEq] at heq
      obtain ⟨rfl, heq⟩ := heq
      obtain ⟨h₁, h₂⟩ := ih u s t (fun z hz => ha z (by simp [hz]))
        (fun z hz => hb z (by simp [hz])) hs ht heq
      exact ⟨by rw [h₁], h₂⟩

theorem fragmentFileName_eq (i r : Nat) :
    fragmentFileName i r =
      strBytes "fragment_" ++ (decBytes i ++ (95 :: (strBytes "replica_" ++
        (decBytes r ++ (46 :: strBytes "pkl"))))) := by
  simp only [fragmentFileName, strBytes]
  simp [List.append_assoc]

theorem fragmentFileName_inj {i r i' r' : Nat}
    (h : fragmentFileName i r = fragmentFileName i' r') : i = i' ∧ r = r' := by
  rw [fragmentFileName_eq, fragmentFileName_eq] at h
  have h₁ := List.append_cancel_left h
  have h₂ := digit_block_inj _ _ _ _ decBytes_range decBytes_range
    (by intro c hc; simp at hc; omega) (by intro c hc; simp at hc; omega) h₁
  obtain ⟨hi, h₃⟩ := h₂
  have hi' : i = i' := decBytes_inj hi
  simp only [List.cons.injEq, true_and] at h₃
  have h₄ := List.append_cancel_left h₃
  have h₅ := digit_block_inj _ _ _ _ decBytes_range decBytes_range
    (by intro c hc; simp at hc; omega) (by intro c hc; simp at hc; omega) h₄
  exact ⟨hi', decBytes_inj h₅.1⟩

theorem fragmentFileName_no_slash (i r : Nat) : ∀ x ∈ fragmentFileName i r, x ≠ 47 := by
  intro x hx
  rw [fragmentFileName_eq] at hx
  simp only [List.mem_append, List.mem_cons] at hx
  have hfrag : ∀ y ∈ strBytes "fragment_", y ≠ 47 := by decide
  have hrep : ∀ y ∈ strBytes "replica_", y ≠ 47 := by decide
  have hpkl : ∀ y ∈ strBytes "pkl", y ≠ 47 := by decide
  rcases hx with h | h | h | h | h | h | h
  · exact hfrag x h
  · have := decBytes_range x h; omega
  · omega
  · exact hrep x h
  · have := decBytes_range x h; omega
  · omega
  · exact hpkl x h

theorem lastComponent_joinPath (d f : Bytes) (hf : ∀ x ∈ f, x ≠ 47) :
    lastComponent (joinPath d f) = f := by
  have hfrev : ∀ x ∈ f.reverse, (fun x => x != 47) x = true := by
    intro x hx
    simp only [bne_iff_ne, ne_eq]
    exact hf x (List.mem_reverse.mp hx)
  have hself : f.reverse.takeWhile (fun x => x != 47) = f.reverse :=
    List.takeWhile_eq_self_iff.mpr hfrev
  by_cases hd : d = []
  · simp [joinPath, hd, lastComponent, hself]
  · by_cases hlast : d.getLast? = some 47
    · have hj : joinPath d f = d ++ f := by simp [joinPath, hd, hlast]
      obtain ⟨t, ht⟩ : ∃ t, d.reverse = 47 :: t := by
        cases hrev : d.reverse with
        | nil =>
          exfalso
          exact hd (by simpa using hrev)
        | cons y t =>
          have hy : d.getLast? = some y := by
            rw [List.getLast?_eq_head?_reverse, hrev]; rfl
          rw [hlast] at hy
          injection hy with hy
          exact ⟨t, by subst hy; rfl⟩
      rw [hj]
      simp only [lastComponent, List.reverse_append, ht]
      rw [List.takeWhile_append_of_pos hfrev]
      simp [List.takeWhile, hself]
    · have hj : joinPath d f = d ++ 47 :: f := by simp [joinPath, hd, hlast]
      rw [hj]
      simp only [lastComponent, List.reverse_append, List.reverse_cons]
      rw [List.append_assoc]
      rw [List.takeWhile_append_of_pos hfrev]
      simp [List.takeWhile, hself]

theorem store_fragment_path_inj {node_paths : List Bytes} {R i r i' r' : Nat}
    (h : store_fragment_path node_paths R i r = store_fragment_path node_paths R i' r') :
    i = i' ∧ r = r' := by
  have h₁ := congrArg lastComponent h
  rw [store_fragment_path, store_fragment_path,
    lastComponent_joinPath _ _ (fragmentFileName_no_slash i r),
    lastComponent_joinPath _ _ (fragmentFileName_no_slash i' r')] at h₁
  exact fragmentFileName_inj h₁

theorem retrieve_path_eq_store_path (node_paths : List Bytes) (R i r : Nat) :
    retrieve_fragment_path node_paths R i r = store_fragment_path node_paths R i r := rfl

/-! Characterization of the storage state produced by a store. -/

theorem foldl_write_lookup_of_ne {T : Type} (key val : T → Bytes) :
    ∀ (l : List T) (σ : Storage) (k : Bytes), (∀ t ∈ l, key t ≠ k) →
    (l.foldl (fun σ t => writeFile σ (key t) (val t)) σ) k = σ k := by
  intro l
  induction l with
  | nil => intro σ k _; rfl
  | cons e l ih =>
    intro σ k hk
    simp only [List.foldl_cons]
    rw [ih _ k (fun t ht => hk t (by simp [ht]))]
    simp only [writeFile]
    rw [if_neg (fun hc => hk e (by simp) hc.symm)]

theorem foldl_write_lookup {T : Type} (key val : T → Bytes) :
    ∀ (l : List T) (σ : Storage) (t : T), t ∈ l → (∀ u ∈ l, key u = key t → u = t) →
    (l.foldl (fun σ u => writeFile σ (key u) (val u)) σ) (key t) = .found (val t) := by
  intro l
  induction l with
  | nil => intro σ t ht; cases ht
  | cons e l ih =>
    intro σ t ht huniq
    simp only [List.foldl_cons]
    by_cases hmem : t ∈ l
    · exact ih _ t hmem (fun u hu hku => huniq u (by simp [hu]) hku)
    · have hte : e = t := by
        rcases List.mem_cons.mp ht with h | h
        · exact h.symm
        · exact absurd h hmem
      subst hte
      rw [foldl_write_lookup_of_ne key val l _ (key e)]
      · simp [writeFile]
      · intro u hu hku
        exact hmem ((huniq u (by simp [hu]) hku) ▸ hu)

theorem encrypt_fragment_sync_eq (P : Prims) (i r : Nat) (frag H : Bytes) :
    encrypt_fragment_sync P (i, frag, H, r) =
      (i, r, (P.gcmEnc (generate_key P H i r).1 (generate_key P H i r).2 frag).1,
        (P.gcmEnc (generate_key P H i r).1 (generate_key P H i r).2 frag).2,
        P.sha256 (P.gcmEnc (generate_key P H i r).1 (generate_key P H i r).2 frag).1) := rfl

theorem encrypt_fragments_false_eq (P : Prims) (H : Bytes) (R : Nat) (fragments : List Bytes) :
    encrypt_fragments P H R fragments false =
      (List.range fragments.length).flatMap (fun i =>
        (List.range R).map (fun replica =>
          encrypt_fragment_sync P (i, P.compress (fragments.getD i []), H, replica))) := by
  simp [encrypt_fragments, encrypt_fragment_sync]

theorem mem_encrypt_fragments {P : Prims} {H : Bytes} {R : Nat} {fragments : List Bytes}
    {e : Nat × Nat × Bytes × Bytes × Bytes}
    (he : e ∈ encrypt_fragments P H R fragments false) :
    ∃ i r, i < fragments.length ∧ r < R ∧
      e = encrypt_fragment_sync P (i, P.compress (fragments.getD i []), H, r) := by
  rw [encrypt_fragments_false_eq, List.mem_flatMap] at he
  obtain ⟨i, hi, he⟩ := he
  rw [List.mem_map] at he
  obtain ⟨r, hr, he⟩ := he
  exact ⟨i, r, List.mem_range.mp hi, List.mem_range.mp hr, he.symm⟩

theorem encrypt_fragments_mem {P : Prims} {H : Bytes} {R : Nat} {fragments : List Bytes}
    {i r : Nat} (hi : i < fragments.length) (hr : r < R) :
    encrypt_fragment_sync P (i, P.compress (fragments.getD i []), H, r) ∈
      encrypt_fragments P H R fragments false := by
  rw [encrypt_fragments_false_eq, List.mem_flatMap]
  refine ⟨i, List.mem_range.mpr hi, ?_⟩
  rw [List.mem_map]
  exact ⟨r, List.mem_range.mpr hr, rfl⟩

theorem store_pipeline_lookup (P : Prims) (node_paths : List Bytes) (R S : Nat) (p : Bytes)
    (σ : Storage) {i r : Nat} (hi : i < (fragment_data p S).length) (hr : r < R) :
    store_pipeline P node_paths R S p false σ (store_fragment_path node_paths R i r) =
      .found (encode_blob P (P.sha256 p) i r ((fragment_data p S).getD i [])) := by
  have hmain := foldl_write_lookup
    (fun (e : Nat × Nat × Bytes × Bytes × Bytes) => store_fragment_path node_paths R e.1 e.2.1)
    (fun e => e.2.2.1 ++ e.2.2.2.1 ++ e.2.2.2.2)
    (encrypt_fragments P (P.sha256 p) R (fragment_data p S) false) σ
    (encrypt_fragment_sync P
      (i, P.compress ((fragment_data p S).getD i []), P.sha256 p, r))
    (encrypt_fragments_mem hi hr) ?_
  · exact hmain
  · intro u hu hku
    obtain ⟨i', r', hi', hr', hu'⟩ := mem_encrypt_fragments hu
    have hpp : store_fragment_path node_paths R i' r' = store_fragment_path node_paths R i r := by
      rw [hu'] at hku
      exact hku
    obtain ⟨hii, hrr⟩ := store_fragment_path_inj hpp
    rw [hu', hii, hrr]

/-! Decoding and retrieval of well-formed blobs. -/

theorem decode_blob_encode {P : Prims} (hP : P.Good) (H : Bytes) (i r : Nat) (frag : Bytes) :
    decode_blob P H i r (encode_blob P H i r frag) = .ok (P.compress frag) := by
  have hct : encode_blob P H i r frag =
      (P.gcmEnc (generate_key P H i r).1 (generate_key P H i r).2 (P.compress frag)).1 ++
        ((P.gcmEnc (generate_key P H i r).1 (generate_key P H i r).2 (P.compress frag)).2 ++
          P.sha256 (P.gcmEnc (generate_key P H i r).1 (generate_key P H i r).2
            (P.compress frag)).1) := by
    rw [← List.append_assoc]
    rfl
  set ct := (P.gcmEnc (generate_key P H i r).1 (generate_key P H i r).2 (P.compress frag)).1
    with hctdef
  set tg := (P.gcmEnc (generate_key P H i r).1 (generate_key P H i r).2 (P.compress frag)).2
    with htgdef
  set cs := P.sha256 ct with hcsdef
  have htglen : tg.length = 16 := hP.tag_len _ _ _
  have hcslen : cs.length = 32 := hP.sha_len _
  have hlen : (encode_blob P H i r frag).length = ct.length + 48 := by
    rw [hct]
    simp [List.length_append, htglen, hcslen]
  simp only [decode_blob]
  rw [if_neg (by omega)]
  have hsub48 : (encode_blob P H i r frag).length - 48 = ct.length := by omega
  have hsub32 : (encode_blob P H i r frag).length - 32 = (ct ++ tg).length := by
    simp [List.length_append, htglen]
    omega
  have htake : (encode_blob P H i r frag).take ((encode_blob P H i r frag).length - 48) = ct := by
    rw [hsub48, hct, List.take_left']
    rfl
  have hdrop48 : (encode_blob P H i r frag).drop ((encode_blob P H i r frag).length - 48) =
      tg ++ cs := by
    rw [hsub48, hct, List.drop_left']
    rfl
  have hdrop32 : (encode_blob P H i r frag).drop ((encode_blob P H i r frag).length - 32) =
      cs := by
    rw [hsub32, hct, ← List.append_assoc, List.drop_left]
  rw [htake, hdrop48, hdrop32, List.take_left' htglen]
  rw [if_neg (by simp [hcsdef])]
  simp [hctdef, htgdef, hP.gcm_correct]

theorem probe_replicas_head_found {P : Prims} (hP : P.Good) (σ : Storage)
    (node_paths : List Bytes) (R : Nat) (H : Bytes) (i r : Nat) (rest : List Nat)
    (frag : Bytes)
    (hσ : σ (retrieve_fragment_path node_paths R i r) = .found (encode_blob P H i r frag)) :
    probe_replicas P σ node_paths R H i (r :: rest) = .ok (some frag) := by
  rw [probe_replicas, hσ]
  simp [decode_blob_encode hP, hP.decompress_compress]

theorem retrieve_loop_all_ok {P : Prims} {σ : Storage} {node_paths : List Bytes}
    {R : Nat} {H : Bytes} (g : Nat → Bytes) :
    ∀ (ids : List Nat),
    (∀ i ∈ ids, retrieve_fragment P σ node_paths R H i = .ok (some (g i))) →
    retrieve_loop P σ node_paths R H ids = .ok (ids.map (fun i => (i, g i))) := by
  intro ids
  induction ids with
  | nil => intro _; rfl
  | cons i rest ih =>
    intro hall
    rw [retrieve_loop, hall i (by simp), ih (fun j hj => hall j (by simp [hj]))]
    rfl

theorem insertById_of_lt {a : Nat × Bytes} : ∀ {l : List (Nat × Bytes)},
    (∀ b ∈ l, a.1 < b.1) → insertById a l = a :: l := by
  intro l hl
  cases l with
  | nil => rfl
  | cons b t =>
    rw [insertById]
    rw [if_neg (by
      have := hl b (by simp)
      omega)]

theorem sortById_of_sorted : ∀ {l : List (Nat × Bytes)},
    List.Pairwise (fun a b => a.1 < b.1) l → sortById l = l := by
  intro l
  induction l with
  | nil => intro _; rfl
  | cons a t ih =>
    intro hp
    have hp' := List.Pairwise.of_cons hp
    have ha : ∀ b ∈ t, a.1 < b.1 := fun b hb => List.rel_of_pairwise_cons hp hb
    show insertById a (sortById t) = a :: t
    rw [ih hp']
    exact insertById_of_lt ha

/-! Reassembly of the fragment slices. -/

theorem numFragments_zero (s : Nat) (hs : 1 ≤ s) : numFragments 0 s = 0 := by
  unfold numFragments
  rw [Nat.zero_add]
  exact Nat.div_eq_of_lt (by omega)

theorem numFragments_succ (n s : Nat) (hs : 1 ≤ s) (hn : 1 ≤ n) :
    numFragments n s = numFragments (n - s) s + 1 := by
  unfold numFragments
  by_cases hns : n ≤ s
  · have h₁ : n + s - 1 = (n - 1) + s := by omega
    have h₂ : n - s = 0 := by omega
    rw [h₁, h₂, Nat.add_div_right _ (by omega), Nat.zero_add]
    rw [Nat.div_eq_of_lt (by omega), Nat.div_eq_of_lt (by omega)]
  · have h₁ : n + s - 1 = (n - s + s - 1) + s := by omega
    rw [h₁, Nat.add_div_right _ (by omega)]

theorem flatten_fragment_data (S : Nat) (hS : 1 ≤ S) (p : Bytes) :
    (fragment_data p S).flatten = p := by
  by_cases hp : p = []
  · subst hp
    simp [fragment_data, numFragments_zero S hS]
  · have hlen : 1 ≤ p.length := by
      cases p with
      | nil => exact absurd rfl hp
      | cons a t => simp
    have hdroplen : (p.drop S).length < p.length := by
      simp only [List.length_drop]
      omega
    have hrec := flatten_fragment_data S hS (p.drop S)
    rw [fragment_data, numFragments_succ p.length S hS hlen, List.range_succ_eq_map]
    simp only [List.map_cons, List.map_map, List.flatten_cons, Nat.zero_mul, List.drop_zero]
    have hinner : (List.range (numFragments (p.length - S) S)).map
        ((fun k => (p.drop (k * S)).take S) ∘ Nat.succ) = fragment_data (p.drop S) S := by
      rw [fragment_data]
      have hlen' : (p.drop S).length = p.length - S := by simp
      rw [hlen']
      apply List.map_congr_left
      intro k _
      simp only [Function.comp]
      rw [List.drop_drop, Nat.succ_mul, Nat.add_comm (k * S) S]
    rw [hinner, hrec, List.take_append_drop]
termination_by p.length
decreasing_by simpa using hdroplen

theorem map_getD_range {α : Type} (l : List α) (d : α) :
    (List.range l.length).map (fun i => l.getD i d) = l := by
  apply List.ext_getElem (by simp)
  intro n h₁ h₂
  simp [List.getD_eq_getElem?_getD, List.getElem?_eq_getElem h₂]

theorem numFragments_eq_zero_iff {n S : Nat} (hS : 1 ≤ S) : numFragments n S = 0 ↔ n = 0 := by
  constructor
  · intro h
    by_contra hn
    rw [numFragments_succ n S hS (by omega)] at h
    omega
  · intro h
    rw [h]
    exact numFragments_zero S hS

theorem fragment_data_length (p : Bytes) (S : Nat) :
    (fragment_data p S).length = numFragments p.length S := by
  simp [fragment_data]

theorem round_trip_main {P : Prims} (hP : P.Good) (node_paths : List Bytes) (R S : Nat)
    (p : Bytes) (hR : 1 ≤ R) (hS : 1 ≤ S) :
    retrieve_pipeline P (store_pipeline P node_paths R S p false emptyStorage) node_paths R
      (P.sha256 p) (fragment_data p S).length = .ok p := by
  have hfrag : ∀ i, i < (fragment_data p S).length →
      retrieve_fragment P (store_pipeline P node_paths R S p false emptyStorage) node_paths R
        (P.sha256 p) i = .ok (some ((fragment_data p S).getD i [])) := by
    intro i hi
    obtain ⟨R', rfl⟩ : ∃ R', R = R' + 1 := ⟨R - 1, by omega⟩
    rw [retrieve_fragment, List.range_succ_eq_map]
    apply probe_replicas_head_found hP
    rw [retrieve_path_eq_store_path]
    exact store_pipeline_lookup P node_paths (R' + 1) S p emptyStorage hi (by omega)
  have hloop : retrieve_fragments P (store_pipeline P node_paths R S p false emptyStorage)
      node_paths R (P.sha256 p) (fragment_data p S).length =
      .ok ((List.range (fragment_data p S).length).map
        (fun i => (i, (fragment_data p S).getD i []))) := by
    rw [retrieve_fragments]
    apply retrieve_loop_all_ok
    intro i hi
    exact hfrag i (List.mem_range.mp hi)
  rw [retrieve_pipeline, hloop]
  by_cases hF : (fragment_data p S).length = 0
  · have hp : p = [] := by
      rw [fragment_data_length] at hF
      have := (numFragments_eq_zero_iff hS).mp hF
      cases p with
      | nil => rfl
      | cons a t => simp at this
    subst hp
    rw [hF]
    rfl
  · have hne : (List.range (fragment_data p S).length).map
        (fun i => (i, (fragment_data p S).getD i [])) ≠ [] := by
      simp only [ne_eq, List.map_eq_nil_iff, List.range_eq_nil]
      exact hF
    simp only [parallel_reassemble]
    rw [if_neg hne]
    have hsorted : List.Pairwise (fun a b : Nat × Bytes => a.1 < b.1)
        ((List.range (fragment_data p S).length).map
          (fun i => (i, (fragment_data p S).getD i []))) := by
      apply List.Pairwise.map
      · intro a b hab
        exact hab
      · exact List.pairwise_lt_range _
    rw [sortById_of_sorted hsorted]
    rw [List.map_map]
    have hmaps : ((List.range (fragment_data p S).length).map
        ((fun f : Nat × Bytes => f.2) ∘ (fun i => (i, (fragment_data p S).getD i [])))) =
        fragment_data p S := map_getD_range _ _
    rw [hmaps, flatten_fragment_data S hS p]

/-! Properties of the key-derivation seed. -/

theorem pyByteEscape_length_pos (q c : Nat) : 1 ≤ (pyByteEscape q c).length := by
  unfold pyByteEscape
  split
  · simp
  · split
    · simp
    · split
      · simp
      · split
        · simp
        · split <;> simp

theorem flatMap_length_ge (f : Nat → Bytes) (h : ∀ c, 1 ≤ (f c).length) :
    ∀ (l : Bytes), l.length ≤ (l.flatMap f).length := by
  intro l
  induction l with
  | nil => simp
  | cons c t ih =>
    simp only [List.flatMap_cons, List.length_append, List.length_cons]
    have := h c
    omega

theorem pyBytesRepr_length_ge (b : Bytes) : b.length + 3 ≤ (pyBytesRepr b).length := by
  simp only [pyBytesRepr, List.length_cons, List.length_append, List.length_singleton]
  have := flatMap_length_ge (pyByteEscape (pyReprQuote b)) (pyByteEscape_length_pos _) b
  omega

theorem generateKeySeed_take_twelve (H : Bytes) (hH : 7 ≤ H.length) (i r : Nat) :
    (generateKeySeed H i r).take 12 =
      (decBytes i ++ [58] ++ pyBytesRepr H ++ [58]).take 12 := by
  rw [generateKeySeed]
  apply List.take_append_of_le_length
  have h₁ := decBytes_length_pos i
  have h₂ := pyBytesRepr_length_ge H
  simp only [List.length_append, List.length_singleton]
  omega

theorem generate_key_nonce_const {P : Prims} (H : Bytes) (hH : 7 ≤ H.length) (i r r' : Nat) :
    (generate_key P H i r).2 = (generate_key P H i r').2 := by
  show (generateKeySeed H i r).take 12 = (generateKeySeed H i r').take 12
  rw [generateKeySeed_take_twelve H hH i r, generateKeySeed_take_twelve H hH i r']

theorem toyPrims_good : toyPrims.Good := by
  constructor
  · intro b; rfl
  · intro k n pt; rfl
  · intro k n pt; simp [toyPrims]
  · intro b; rfl

/-! Claim theorems. -/

/-- C1: for every payload and every configuration with replication factor at
least 1, at least one node and fragment size at least 1, storing the payload
(split, compress once per fragment, encrypt per replica, write all blobs) and
retrieving with the same fragment count, payload checksum and configuration
over unchanged storage returns exactly the payload bytes. -/
theorem C1_round_trip {P : Prims} (hP : P.Good) (node_paths : List Bytes) (R S : Nat)
    (p : Bytes) (hM : 1 ≤ node_paths.length) (hR : 1 ≤ R) (hS : 1 ≤ S)
    (hN : p.length ≤ 10485760) :
    retrieve_pipeline P (store_pipeline P node_paths R S p false emptyStorage) node_paths R
      (P.sha256 p) (fragment_data p S).length = .ok p :=
  round_trip_main hP node_paths R S p hR hS

/-- Witness for C1 at a concrete two-byte payload with one node, replication
factor 1 and fragment size 1. -/
theorem C1_round_trip_witness :
    toyPrims.Good ∧ 1 ≤ ([[110]] : List Bytes).length ∧ (1 : Nat) ≤ 1 ∧
    ([7, 9] : Bytes).length ≤ 10485760 ∧
    retrieve_pipeline toyPrims (store_pipeline toyPrims [[110]] 1 1 [7, 9] false emptyStorage)
      [[110]] 1 (toyPrims.sha256 [7, 9]) (fragment_data [7, 9] 1).length = .ok [7, 9] :=
  ⟨toyPrims_good, by decide, by decide, by decide,
    C1_round_trip toyPrims_good [[110]] 1 1 [7, 9] (by decide) (by decide) (by decide)
      (by decide)⟩

/-- C2: on the inline fast path with replication factor 2 the code encrypts
and stores replica 0 only, so after the store the replica-0 blob exists while
the replica-1 blob is missing, contrary to the claim that both replicas are
present. -/
theorem C2_inline_single_replica :
    (store_pipeline toyPrims [[97], [98]] 2 3 [1, 2, 3] true emptyStorage)
        (store_fragment_path [[97], [98]] 2 0 0) ≠ .missing ∧
    (store_pipeline toyPrims [[97], [98]] 2 3 [1, 2, 3] true emptyStorage)
        (store_fragment_path [[97], [98]] 2 0 1) = .missing := by
  constructor <;> decide

/-- C3: with both fragments stored at replication factor 1 and the only
replica of fragment 0 then deleted, retrieval returns just the surviving pair
for fragment 1 and carries no missing-fragment report at all, and reassembly
returns the partial payload in ascending id order. -/
theorem C3_no_missing_report :
    retrieve_fragments toyPrims
        (deleteFile (store_pipeline toyPrims [[110]] 1 1 [1, 2] false emptyStorage)
          (store_fragment_path [[110]] 1 0 0)) [[110]] 1 (toyPrims.sha256 [1, 2]) 2 =
      .ok [(1, [2])] ∧
    parallel_reassemble [(1, [2])] = [2] := by
  constructor <;> decide

/-- C4 counterexample: for the all-zero 32-byte checksum and fragment 0,
replica 0, the nonce produced by `generate_key` is not the first 12 bytes of
the hexadecimal seed described by the claim, because the code interpolates the
Python repr of the checksum bytes, not its hexadecimal rendering. -/
theorem C4_counterexample :
    (generate_key toyPrims (List.replicate 32 0) 0 0).2 ≠
      (claimSeedHex (List.replicate 32 0) 0 0).take 12 := by decide

/-- C4 amended: key derivation builds the seed from the decimal fragment id,
a colon, the Python repr of the checksum bytes object, a colon and the decimal
replica id, derives the 32-byte key by PBKDF2-HMAC-SHA256 over that seed with
the first 16 seed bytes as salt and 100000 iterations, and uses the first 12
seed bytes as nonce. -/
theorem C4_amended (P : Prims) (H : Bytes) (i r : Nat) :
    generate_key P H i r =
      (P.pbkdf2 (amendedSeedSpec H i r) ((amendedSeedSpec H i r).take 16) 100000 32,
        (amendedSeedSpec H i r).take 12) := rfl

/-- C5 counterexample: the file used for fragment 0, replica 0 is not named
`fragment_0_replica_0`; the code appends a `.pkl` extension. -/
theorem C5_counterexample :
    store_fragment_path [[110]] 1 0 0 ≠ joinPath [110] (strBytes "fragment_0_replica_0") := by
  decide

/-- C5 amended: for every fragment id and replica id the producer and the
consumer compute the same path, namely the file `fragment_{i}_replica_{r}.pkl`
inside the node directory at index `(i * R + r) mod M`. -/
theorem C5_amended (node_paths : List Bytes) (R i r : Nat) :
    retrieve_fragment_path node_paths R i r = store_fragment_path node_paths R i r ∧
    store_fragment_path node_paths R i r =
      joinPath (node_paths.getD ((i * R + r) % node_paths.length) [])
        (strBytes "fragment_" ++ decBytes i ++ strBytes "_replica_" ++ decBytes r ++
          strBytes ".pkl") :=
  ⟨retrieve_path_eq_store_path node_paths R i r, rfl⟩

/-- C6 counterexample: at one mebibyte the fragment-size function returns
100 KiB, not the 50 KiB the claim requires for payloads up to 1 MiB, because
the code threshold is 1024000 bytes rather than 1048576. -/
theorem C6_counterexample :
    optimal_fragment_size 1048576 = 102400 ∧ ¬ optimal_fragment_size 1048576 = 51200 := by
  decide

/-- C6 amended: the fragment-size function returns the payload size up to
102400 bytes, 51200 bytes up to 1024000 bytes, 102400 bytes up to 10240000
bytes and 204800 bytes beyond. -/
theorem C6_amended (n : Nat) :
    (n ≤ 102400 → optimal_fragment_size n = n) ∧
    (102400 < n → n ≤ 1024000 → optimal_fragment_size n = 51200) ∧
    (1024000 < n → n ≤ 10240000 → optimal_fragment_size n = 102400) ∧
    (10240000 < n → optimal_fragment_size n = 204800) := by
  unfold optimal_fragment_size
  refine ⟨?_, ?_, ?_, ?_⟩
  · intro h
    rw [if_pos (by omega)]
  · intro h₁ h₂
    rw [if_neg (by omega), if_pos (by omega)]
  · intro h₁ h₂
    rw [if_neg (by omega), if_neg (by omega), if_pos (by omega)]
  · intro h₁
    rw [if_neg (by omega), if_neg (by omega), if_neg (by omega)]

/-- Witness for C6 amended at one input per branch. -/
theorem C6_amended_witness :
    optimal_fragment_size 1000 = 1000 ∧ optimal_fragment_size 500000 = 51200 ∧
    optimal_fragment_size 2000000 = 102400 ∧ optimal_fragment_size 20000000 = 204800 :=
  ⟨(C6_amended 1000).1 (by decide), (C6_amended 500000).2.1 (by decide) (by decide),
    (C6_amended 2000000).2.2.1 (by decide) (by decide),
    (C6_amended 20000000).2.2.2 (by decide)⟩

/-- C7: decoding a stored blob checks in order the frame length, then the
ciphertext checksum, then the GCM authentication, and accepts exactly when the
blob is long enough, the checksum matches and decryption succeeds. -/
theorem C7_decode_order (P : Prims) (H : Bytes) (i r : Nat) (blob : Bytes) :
    (blob.length < 48 → decode_blob P H i r blob = .error .malformedFrame) ∧
    (48 ≤ blob.length →
      P.sha256 (blob.take (blob.length - 48)) ≠ blob.drop (blob.length - 32) →
      decode_blob P H i r blob = .error .checksumMismatch) ∧
    (48 ≤ blob.length →
      P.sha256 (blob.take (blob.length - 48)) = blob.drop (blob.length - 32) →
      P.gcmDec (generate_key P H i r).1 (generate_key P H i r).2
        ((blob.drop (blob.length - 48)).take 16) (blob.take (blob.length - 48)) = none →
      decode_blob P H i r blob = .error .authFailure) ∧
    (∀ pt, decode_blob P H i r blob = .ok pt ↔
      48 ≤ blob.length ∧
      P.sha256 (blob.take (blob.length - 48)) = blob.drop (blob.length - 32) ∧
      P.gcmDec (generate_key P H i r).1 (generate_key P H i r).2
        ((blob.drop (blob.length - 48)).take 16) (blob.take (blob.length - 48)) = some pt) := by
  refine ⟨?_, ?_, ?_, ?_⟩
  · intro h
    simp only [decode_blob]
    rw [if_pos h]
  · intro h₁ h₂
    simp only [decode_blob]
    rw [if_neg (by omega), if_pos h₂]
  · intro h₁ h₂ h₃
    simp only [decode_blob]
    rw [if_neg (by omega), if_neg (by simp [h₂]), h₃]
  · intro pt
    constructor
    · intro h
      by_cases h₁ : blob.length < 48
      · simp only [decode_blob] at h
        rw [if_pos h₁] at h
        simp at h
      · by_cases h₂ : P.sha256 (blob.take (blob.length - 48)) = blob.drop (blob.length - 32)
        · simp only [decode_blob] at h
          rw [if_neg h₁, if_neg (by simp [h₂])] at h
          cases hdec : P.gcmDec (generate_key P H i r).1 (generate_key P H i r).2
              ((blob.drop (blob.length - 48)).take 16) (blob.take (blob.length - 48)) with
          | none =>
            rw [hdec] at h
            simp at h
          | some q =>
            rw [hdec] at h
            simp only [Except.ok.injEq] at h
            exact ⟨by omega, h₂, by rw [h]⟩
        · simp only [decode_blob] at h
          rw [if_neg h₁, if_pos h₂] at h
          simp at h
    · rintro ⟨h₁, h₂, h₃⟩
      simp only [decode_blob]
      rw [if_neg (by omega), if_neg (by simp [h₂]), h₃]

/-- Witness for C7: a short blob, a blob with a bad checksum, a blob with a
bad tag and a well-formed blob, decoded under the concrete primitives. -/
theorem C7_witness :
    decode_blob toyPrims [] 0 0 [1, 2, 3] = .error .malformedFrame ∧
    decode_blob toyPrims [] 0 0 (List.replicate 48 1) = .error .checksumMismatch ∧
    decode_blob toyPrims [] 0 0 (5 :: (List.replicate 16 9 ++ List.replicate 32 0)) =
      .error .authFailure ∧
    decode_blob toyPrims [] 0 0 ([5] ++ List.replicate 16 7 ++ List.replicate 32 0) =
      .ok [5] :=
  ⟨(C7_decode_order toyPrims [] 0 0 [1, 2, 3]).1 (by decide),
    (C7_decode_order toyPrims [] 0 0 (List.replicate 48 1)).2.1 (by decide) (by decide),
    (C7_decode_order toyPrims [] 0 0
      (5 :: (List.replicate 16 9 ++ List.replicate 32 0))).2.2.1 (by decide) (by decide)
      (by decide),
    ((C7_decode_order toyPrims [] 0 0
      ([5] ++ List.replicate 16 7 ++ List.replicate 32 0)).2.2.2 [5]).mpr (by decide)⟩

/-- C8: the blob written at a given fragment and replica is a pure function of
the payload checksum, the indices and the fragment bytes: two stores agreeing
on checksum and fragment bytes place byte-identical blobs at that position,
and the blob equals the deterministic encoding with no random input. -/
theorem C8_deterministic (P : Prims) (node_paths : List Bytes) (R S₁ S₂ : Nat)
    (p₁ p₂ : Bytes) (i r : Nat)
    (hi₁ : i < (fragment_data p₁ S₁).length) (hi₂ : i < (fragment_data p₂ S₂).length)
    (hr : r < R) (hH : P.sha256 p₁ = P.sha256 p₂)
    (hfrag : (fragment_data p₁ S₁).getD i [] = (fragment_data p₂ S₂).getD i []) :
    store_pipeline P node_paths R S₁ p₁ false emptyStorage
        (store_fragment_path node_paths R i r) =
      store_pipeline P node_paths R S₂ p₂ false emptyStorage
        (store_fragment_path node_paths R i r) ∧
    store_pipeline P node_paths R S₁ p₁ false emptyStorage
        (store_fragment_path node_paths R i r) =
      .found (encode_blob P (P.sha256 p₁) i r ((fragment_data p₁ S₁).getD i [])) := by
  have h₁ := store_pipeline_lookup P node_paths R S₁ p₁ emptyStorage hi₁ hr
  have h₂ := store_pipeline_lookup P node_paths R S₂ p₂ emptyStorage hi₂ hr
  exact ⟨by rw [h₁, h₂, hH, hfrag], h₁⟩

/-- Witness for C8: two identical stores of a concrete payload place the same
blob at fragment 0, replica 0. -/
theorem C8_deterministic_witness :
    0 < (fragment_data [4, 5] 1).length ∧ (0 : Nat) < 1 ∧
    (store_pipeline toyPrims [[110]] 1 1 [4, 5] false emptyStorage
        (store_fragment_path [[110]] 1 0 0) =
      store_pipeline toyPrims [[110]] 1 1 [4, 5] false emptyStorage
        (store_fragment_path [[110]] 1 0 0) ∧
    store_pipeline toyPrims [[110]] 1 1 [4, 5] false emptyStorage
        (store_fragment_path [[110]] 1 0 0) =
      .found (encode_blob toyPrims (toyPrims.sha256 [4, 5]) 0 0
        ((fragment_data [4, 5] 1).getD 0 []))) :=
  ⟨by decide, by decide,
    C8_deterministic toyPrims [[110]] 1 1 1 [4, 5] [4, 5] 0 0 (by decide) (by decide)
      (by decide) rfl rfl⟩

/-- C9 counterexample: when the read of the replica-0 file itself fails at the
I/O level, the failure is not recovered locally: it escapes the retrieval
call. -/
theorem C9_counterexample :
    retrieve_fragments toyPrims
        (fun q => if q = retrieve_fragment_path [[110]] 1 0 0 then .ioError else .missing)
        [[110]] 1 (toyPrims.sha256 [1]) 1 = .error () := by decide

/-- C9 amended: a missing file, a malformed frame, a checksum mismatch, an
authentication failure or a decompression failure of one replica each cause
the routine to continue with the next replica; only a failure of the
underlying read call itself escapes. -/
theorem C9_amended (P : Prims) (σ : Storage) (node_paths : List Bytes) (R : Nat)
    (H : Bytes) (i r : Nat) (rest : List Nat)
    (h : σ (retrieve_fragment_path node_paths R i r) = .missing ∨
      ∃ data, σ (retrieve_fragment_path node_paths R i r) = .found data ∧
        ((∃ e, decode_blob P H i r data = .error e) ∨
          (∃ pt, decode_blob P H i r data = .ok pt ∧ P.decompress pt = none))) :
    probe_replicas P σ node_paths R H i (r :: rest) =
      probe_replicas P σ node_paths R H i rest := by
  rcases h with h | ⟨data, hfound, hfail⟩
  · rw [probe_replicas, h]
  · rw [probe_replicas, hfound]
    rcases hfail with ⟨e, he⟩ | ⟨pt, hpt, hdec⟩
    · simp [he]
    · simp [hpt, hdec]

/-- Witness for C9 amended: a missing replica-0 file is skipped and probing
falls through to the remaining replicas. -/
theorem C9_amended_witness :
    (emptyStorage (retrieve_fragment_path [[110]] 1 0 0) = .missing ∨
      ∃ data, emptyStorage (retrieve_fragment_path [[110]] 1 0 0) = .found data ∧
        ((∃ e, decode_blob toyPrims [] 0 0 data = .error e) ∨
          (∃ pt, decode_blob toyPrims [] 0 0 data = .ok pt ∧
            toyPrims.decompress pt = none))) ∧
    probe_replicas toyPrims emptyStorage [[110]] 1 [] 0 [0] =
      probe_replicas toyPrims emptyStorage [[110]] 1 [] 0 [] :=
  ⟨Or.inl rfl, C9_amended toyPrims emptyStorage [[110]] 1 [] 0 0 [] (Or.inl rfl)⟩

/-- C10: for a 32-byte checksum the nonce returned by `generate_key` is the
same for every replica of a fragment, because it is the first 12 bytes of the
seed and the replica component lies beyond them; the key depends on the
replica only through the full seed fed to PBKDF2. -/
theorem C10_nonce_shared (P : Prims) (H : Bytes) (hH : H.length = 32) (i r r' : Nat) :
    (generate_key P H i r).2 = (generate_key P H i r').2 ∧
    (generate_key P H i r).2 = (generateKeySeed H i r).take 12 ∧
    (generate_key P H i r).1 =
      P.pbkdf2 (generateKeySeed H i r) ((generateKeySeed H i r).take 16) 100000 32 :=
  ⟨generate_key_nonce_const H (by omega) i r r', rfl, rfl⟩

/-- Witness for C10 at the all-zero 32-byte checksum: replicas 0 and 1 of
fragment 0 share a nonce. -/
theorem C10_nonce_shared_witness :
    (List.replicate 32 0 : Bytes).length = 32 ∧
    (generate_key toyPrims (List.replicate 32 0) 0 0).2 =
      (generate_key toyPrims (List.replicate 32 0) 0 1).2 :=
  ⟨by decide, (C10_nonce_shared toyPrims (List.replicate 32 0) (by decide) 0 0 1).1⟩

end Crystal

